import Mathlib

/-!
# riscv-vm: the public header `riscv_core/riscv.h` and the driver `riscv_vm/main.cpp`

A shallow embedding of the two source files.

* Declarations (the register enumeration, the handler types, the record
  `riscv_io_t`, the prototypes of the control surface) are embedded as data, so
  that statements about parameter lists and record slots can be evaluated.
* The functions of `main.cpp` are embedded as Lean functions over an explicit
  processor value.  Every call that leaves the translation unit is recorded as
  an `Event`, in program order.
* Unsigned 32-bit arithmetic is `Nat` arithmetic reduced modulo `2 ^ 32`.
-/

namespace RiscvVM

/-! ## riscv.h : types -/

/-- The C types that occur in the declarations of `riscv.h` and in the
definitions of `main.cpp`.  `riscv_ptr` is `struct riscv_t *`, `io_ptr` is
`const struct riscv_io_t *`, `void_ptr` is `void *`. -/
inductive CType where
  | void
  | uint8_t
  | uint16_t
  | uint32_t
  | riscv_ptr
  | io_ptr
  | void_ptr
  deriving DecidableEq, Repr

/-- Line 45: `typedef void *riscv_user_t;` -/
def riscv_user_t : CType := CType.void_ptr

/-- Line 47: `typedef uint32_t riscv_word_t;` -/
def riscv_word_t : CType := CType.uint32_t

/-- Line 48: `typedef uint16_t riscv_half_t;` -/
def riscv_half_t : CType := CType.uint16_t

/-- Line 49: `typedef uint8_t  riscv_byte_t;` -/
def riscv_byte_t : CType := CType.uint8_t

/-- The value of `sizeof` for the fixed-width integer types (`none` for the
types whose size the sources do not fix). -/
def CType.sizeof : CType → Option Nat
  | CType.uint8_t => some 1
  | CType.uint16_t => some 2
  | CType.uint32_t => some 4
  | _ => none

/-- The values a parameter of a fixed-width unsigned type can take: `v` is
representable in the type. -/
def CType.admits (t : CType) (v : Nat) : Bool :=
  match t.sizeof with
  | some n => decide (v < 2 ^ (8 * n))
  | none => false

/-- A function type: result type and parameter list. -/
structure CSig where
  ret : CType
  params : List CType
  deriving DecidableEq, Repr

/-! ## riscv.h : the register enumeration (lines 9-42)

An enumerator with an initialiser has that value; an enumerator without one has
the value of the previous enumerator plus one. -/

def rv_reg_zero : Nat := 0
def rv_reg_ra : Nat := rv_reg_zero + 1
def rv_reg_sp : Nat := rv_reg_ra + 1
def rv_reg_gp : Nat := rv_reg_sp + 1
def rv_reg_tp : Nat := rv_reg_gp + 1
def rv_reg_t0 : Nat := rv_reg_tp + 1
def rv_reg_t1 : Nat := rv_reg_t0 + 1
def rv_reg_t2 : Nat := rv_reg_t1 + 1
def rv_reg_s0 : Nat := rv_reg_t2 + 1
def rv_reg_s1 : Nat := rv_reg_s0 + 1
def rv_reg_a0 : Nat := rv_reg_s1 + 1
def rv_reg_a1 : Nat := rv_reg_a0 + 1
def rv_reg_a2 : Nat := rv_reg_a1 + 1
def rv_reg_a3 : Nat := rv_reg_a2 + 1
def rv_reg_a4 : Nat := rv_reg_a3 + 1
def rv_reg_a5 : Nat := rv_reg_a4 + 1
def rv_reg_a6 : Nat := rv_reg_a5 + 1
def rv_reg_a7 : Nat := rv_reg_a6 + 1
def rv_reg_s2 : Nat := rv_reg_a7 + 1
def rv_reg_s3 : Nat := rv_reg_s2 + 1
def rv_reg_s4 : Nat := rv_reg_s3 + 1
def rv_reg_s5 : Nat := rv_reg_s4 + 1
def rv_reg_s6 : Nat := rv_reg_s5 + 1
def rv_reg_s7 : Nat := rv_reg_s6 + 1
def rv_reg_s8 : Nat := rv_reg_s7 + 1
def rv_reg_s9 : Nat := rv_reg_s8 + 1
def rv_reg_s10 : Nat := rv_reg_s9 + 1
def rv_reg_s11 : Nat := rv_reg_s10 + 1
def rv_reg_t3 : Nat := rv_reg_s11 + 1
def rv_reg_t4 : Nat := rv_reg_t3 + 1
def rv_reg_t5 : Nat := rv_reg_t4 + 1
def rv_reg_t6 : Nat := rv_reg_t5 + 1

/-- The enumerators of the register enumeration, in declaration order. -/
def rv_reg_enum : List Nat :=
  [rv_reg_zero, rv_reg_ra, rv_reg_sp, rv_reg_gp, rv_reg_tp, rv_reg_t0, rv_reg_t1,
   rv_reg_t2, rv_reg_s0, rv_reg_s1, rv_reg_a0, rv_reg_a1, rv_reg_a2, rv_reg_a3,
   rv_reg_a4, rv_reg_a5, rv_reg_a6, rv_reg_a7, rv_reg_s2, rv_reg_s3, rv_reg_s4,
   rv_reg_s5, rv_reg_s6, rv_reg_s7, rv_reg_s8, rv_reg_s9, rv_reg_s10, rv_reg_s11,
   rv_reg_t3, rv_reg_t4, rv_reg_t5, rv_reg_t6]

/-- The size of the register file: one register per enumerator. -/
def RV_NUM_REGS : Nat := rv_reg_enum.length

/-! ## riscv.h : handler types (lines 51-63) -/

/-- Line 52: `riscv_word_t (*riscv_mem_read_w)(struct riscv_t *rv, riscv_word_t addr)` -/
def riscv_mem_read_w : CSig := ⟨riscv_word_t, [CType.riscv_ptr, riscv_word_t]⟩

/-- Line 53: `riscv_half_t (*riscv_mem_read_s)(struct riscv_t *rv, riscv_word_t addr)` -/
def riscv_mem_read_s : CSig := ⟨riscv_half_t, [CType.riscv_ptr, riscv_word_t]⟩

/-- Line 54: `riscv_byte_t (*riscv_mem_read_b)(struct riscv_t *rv, riscv_word_t addr)` -/
def riscv_mem_read_b : CSig := ⟨riscv_byte_t, [CType.riscv_ptr, riscv_word_t]⟩

/-- Line 57: `void (*riscv_mem_write_w)(struct riscv_t *rv, riscv_word_t addr, riscv_word_t data)` -/
def riscv_mem_write_w : CSig := ⟨CType.void, [CType.riscv_ptr, riscv_word_t, riscv_word_t]⟩

/-- Line 58: `void (*riscv_mem_write_s)(struct riscv_t *rv, riscv_word_t addr, riscv_half_t data)` -/
def riscv_mem_write_s : CSig := ⟨CType.void, [CType.riscv_ptr, riscv_word_t, riscv_half_t]⟩

/-- Line 59: `void (*riscv_mem_write_b)(struct riscv_t *rv, riscv_word_t addr, riscv_byte_t data)` -/
def riscv_mem_write_b : CSig := ⟨CType.void, [CType.riscv_ptr, riscv_word_t, riscv_byte_t]⟩

/-- Line 62: `void (*riscv_on_ecall)(struct riscv_t *rv, riscv_word_t addr, uint32_t inst)` -/
def riscv_on_ecall : CSig := ⟨CType.void, [CType.riscv_ptr, riscv_word_t, CType.uint32_t]⟩

/-- Line 63: `void (*riscv_on_ebreak)(struct riscv_t *rv, riscv_word_t addr, uint32_t inst)` -/
def riscv_on_ebreak : CSig := ⟨CType.void, [CType.riscv_ptr, riscv_word_t, CType.uint32_t]⟩

/-! ## riscv.h : the record `riscv_io_t` (lines 66-78) -/

/-- The members of `struct riscv_io_t`. -/
inductive io_slot where
  | mem_read_w
  | mem_read_s
  | mem_read_b
  | mem_write_w
  | mem_write_s
  | mem_write_b
  | on_ecall
  | on_ebreak
  deriving DecidableEq, Repr

/-- The members of `struct riscv_io_t` in declaration order, each with its
declared type. -/
def riscv_io_t : List (io_slot × CSig) :=
  [(io_slot.mem_read_w, riscv_mem_read_w),
   (io_slot.mem_read_s, riscv_mem_read_s),
   (io_slot.mem_read_b, riscv_mem_read_b),
   (io_slot.mem_write_w, riscv_mem_write_w),
   (io_slot.mem_write_s, riscv_mem_write_s),
   (io_slot.mem_write_b, riscv_mem_write_b),
   (io_slot.on_ecall, riscv_on_ecall),
   (io_slot.on_ebreak, riscv_on_ebreak)]

/-! ## riscv.h : prototypes of the control surface (lines 80-105) -/

/-- Line 90: `void rv_step(struct riscv_t *);` -/
def rv_step_decl : CSig := ⟨CType.void, [CType.riscv_ptr]⟩

/-- Line 102: `void rv_set_reg(struct riscv_t *, uint32_t reg, riscv_word_t in);` -/
def rv_set_reg_decl : CSig := ⟨CType.void, [CType.riscv_ptr, CType.uint32_t, riscv_word_t]⟩

/-- Line 105: `riscv_word_t rv_get_reg(struct riscv_t *, uint32_t reg);` -/
def rv_get_reg_decl : CSig := ⟨riscv_word_t, [CType.riscv_ptr, CType.uint32_t]⟩

/-- The type of the parameter named `reg` (the second one) of a register
accessor prototype. -/
def reg_param (d : CSig) : CType := d.params.getD 1 CType.void

/-! ## main.cpp : the handlers as declared (lines 30-80) and the record initialiser -/

/-- The nine handler functions defined in the anonymous namespace of `main.cpp`. -/
inductive handler where
  | imp_mem_ifetch
  | imp_mem_read_w
  | imp_mem_read_s
  | imp_mem_read_b
  | imp_mem_write_w
  | imp_mem_write_s
  | imp_mem_write_b
  | imp_on_ecall
  | imp_on_ebreak
  deriving DecidableEq, Repr

/-- The function type of each handler, read off its definition in `main.cpp`. -/
def handler.sig : handler → CSig
  | handler.imp_mem_ifetch => ⟨riscv_word_t, [CType.riscv_ptr, riscv_word_t]⟩
  | handler.imp_mem_read_w => ⟨riscv_word_t, [CType.riscv_ptr, riscv_word_t]⟩
  | handler.imp_mem_read_s => ⟨riscv_half_t, [CType.riscv_ptr, riscv_word_t]⟩
  | handler.imp_mem_read_b => ⟨riscv_byte_t, [CType.riscv_ptr, riscv_word_t]⟩
  | handler.imp_mem_write_w => ⟨CType.void, [CType.riscv_ptr, riscv_word_t, riscv_word_t]⟩
  | handler.imp_mem_write_s => ⟨CType.void, [CType.riscv_ptr, riscv_word_t, riscv_half_t]⟩
  | handler.imp_mem_write_b => ⟨CType.void, [CType.riscv_ptr, riscv_word_t, riscv_byte_t]⟩
  | handler.imp_on_ecall => ⟨CType.void, [CType.riscv_ptr, riscv_word_t, CType.uint32_t]⟩
  | handler.imp_on_ebreak => ⟨CType.void, [CType.riscv_ptr, riscv_word_t, CType.uint32_t]⟩

/-- Lines 144-154: the initialiser list of `const riscv_io_t io = { ... }`, in
source order. -/
def io_initialiser : List handler :=
  [handler.imp_mem_ifetch,
   handler.imp_mem_read_w,
   handler.imp_mem_read_s,
   handler.imp_mem_read_b,
   handler.imp_mem_write_w,
   handler.imp_mem_write_s,
   handler.imp_mem_write_b,
   handler.imp_on_ecall,
   handler.imp_on_ebreak]

/-- Positional aggregate initialisation: the k-th initialiser is bound to the
k-th member of the record.  Initialisers beyond the last member bind nothing. -/
def bind_positional (members : List (io_slot × CSig)) (inits : List handler) :
    List (io_slot × handler) :=
  List.zipWith (fun m h => (m.1, h)) members inits

/-- A positional initialiser is accepted when it has no more initialisers than
the record has members and every initialiser has the type of its member. -/
def initialiser_well_formed (members : List (io_slot × CSig)) (inits : List handler) : Bool :=
  decide (inits.length ≤ members.length) &&
    (List.zipWith (fun m h => decide (m.2 = handler.sig h)) members inits).all id

/-- The argument types of the call `rv_step(rv, cycles_per_step)`; `rv` is a
`riscv_t *` and `cycles_per_step` a `static const uint32_t`. -/
def rv_step_call_args : List CType := [CType.riscv_ptr, CType.uint32_t]

/-- Line 92: the call of `rv_step` in `run_and_trace`. -/
def run_and_trace_step_call : List CType := rv_step_call_args

/-- Line 110: the call of `rv_step` in `run_and_show_mips`. -/
def run_and_show_mips_step_call : List CType := rv_step_call_args

/-- Line 121: the call of `rv_step` in `run`. -/
def run_step_call : List CType := rv_step_call_args

/-- A call matches a prototype when it supplies one argument of the declared
type for each declared parameter, and no others. -/
def call_matches (d : CSig) (args : List CType) : Bool := decide (args = d.params)

/-! ## Processor and host state -/

/-- Modelled from the spec: `struct riscv_t` is only forward-declared in
`riscv.h` (line 44) and its definition is not part of the sources.  The spec
gives the architectural state as a register file of 32 words and a program
counter, and says that the processor stores the opaque user data it was created
with.  The user-data pointer is embedded as the object it points to, so that a
write through `rv_userdata(rv)` is an update of the field `userdata`. -/
structure riscv_t (U : Type) where
  X : Fin 32 → Nat
  PC : Nat
  userdata : U

/-- Modelled from the spec: `state.h` is not part of the sources.  The fields
are the ones `main.cpp` uses: `mem`, `done`, `break_addr` and `fd_map`
(host-owned memory, the halted flag, the heap break and the file descriptors). -/
structure state_t (Mem File : Type) where
  mem : Mem
  done : Bool
  break_addr : Nat
  fd_map : Nat → Option File

/-- Modelled from the spec: `rv_userdata` is declared at line 93 of `riscv.h`
and defined outside the sources; it returns the user data supplied at creation
unchanged. -/
def rv_userdata {U : Type} (rv : riscv_t U) : U := rv.userdata

/-- Modelled from the spec: `rv_get_pc` is declared at line 99 of `riscv.h` and
defined outside the sources; it returns the program counter. -/
def rv_get_pc {U : Type} (rv : riscv_t U) : Nat := rv.PC

/-- Modelled from the spec: `rv_set_reg` is declared at line 102 of `riscv.h`
and defined outside the sources.  Section 4.1: "if i == 0, no-op (preserves
hard-wired zero); otherwise registers[i] = v".  Section 7 lets an out-of-range
index be "taken modulo the fixed register-file size or rejected at the call
boundary"; the index is reduced modulo 32 here. -/
def rv_set_reg {U : Type} (rv : riscv_t U) (reg : Nat) (v : Nat) : riscv_t U :=
  if reg % 32 = 0 then rv
  else { rv with X := Function.update rv.X ⟨reg % 32, Nat.mod_lt reg (by decide)⟩ v }

/-- Modelled from the spec: `rv_get_reg` is declared at line 105 of `riscv.h`
and defined outside the sources.  Section 4.1: "if i == 0, returns 0; otherwise
returns registers[i]"; an out-of-range index is reduced modulo 32 as in
`rv_set_reg`. -/
def rv_get_reg {U : Type} (rv : riscv_t U) (reg : Nat) : Nat :=
  if reg % 32 = 0 then 0
  else rv.X ⟨reg % 32, Nat.mod_lt reg (by decide)⟩

/-! ## Object representation of unsigned integers -/

/-- The byte order of the host that runs the driver. -/
inductive byte_order where
  | little
  | big
  deriving DecidableEq, Repr

/-- The `n` low bytes of `v`, least significant first. -/
def le_bytes : Nat → Nat → List Nat
  | 0, _ => []
  | n + 1, v => v % 256 :: le_bytes n (v / 256)

/-- The number whose bytes, least significant first, are `bs`. -/
def le_value : List Nat → Nat
  | [] => 0
  | b :: bs => b + 256 * le_value bs

/-- The `size` bytes found at `(uint8_t*)&data` for an unsigned object of
`size` bytes holding `data`. -/
def object_bytes (o : byte_order) (size data : Nat) : List Nat :=
  match o with
  | byte_order.little => le_bytes size data
  | byte_order.big => (le_bytes size data).reverse

/-- The value of an unsigned object whose bytes in memory are `bs`. -/
def object_value (o : byte_order) (bs : List Nat) : Nat :=
  match o with
  | byte_order.little => le_value bs
  | byte_order.big => le_value bs.reverse

/-- The value of `sizeof(data)` for a parameter `data` of type `t`. -/
def sizeof_data (t : CType) : Nat := t.sizeof.getD 0

/-! ## Events -/

/-- What the driver does that is visible outside the function that does it, in
program order: calls of functions defined elsewhere, output, and evaluations of
the loop condition `!state->done`. -/
inductive Event where
  | mem_write (addr : Nat) (bytes : List Nat) (size : Nat)
  | mem_read (addr : Nat) (size : Nat)
  | syscall_handler
  | check_done (done : Bool)
  | rv_step (cycles : Nat)
  | print_trace (pc : Nat) (sym : String)
  | print_ips (n : Int)
  | print_word (value : Nat)
  deriving DecidableEq, Repr

/-- Whether an event is a call of `rv_step`. -/
def Event.is_step : Event → Bool
  | Event.rv_step _ => true
  | _ => false

/-- Whether an event is an evaluation of the loop condition. -/
def Event.is_check : Event → Bool
  | Event.check_done _ => true
  | _ => false

/-- Whether an event is a call of `syscall_handler`. -/
def Event.is_syscall : Event → Bool
  | Event.syscall_handler => true
  | _ => false

/-- The number of `rv_step` calls in a trace. -/
def step_calls (t : List Event) : Nat := (t.filter Event.is_step).length

/-! ## main.cpp : write handlers (lines 50-63)

`write` stands for `memory::write(addr, ptr, size)`, which is defined outside
the sources; it receives the memory, the address and the `size` bytes found at
`ptr`. -/

section handlers

variable {Mem File : Type}

/-- Lines 50-53: `imp_mem_write_w`. -/
def imp_mem_write_w (o : byte_order) (write : Mem → Nat → List Nat → Mem)
    (rv : riscv_t (state_t Mem File)) (addr data : Nat) :
    riscv_t (state_t Mem File) × List Event :=
  let s := rv_userdata rv
  let size := sizeof_data riscv_word_t
  let bytes := object_bytes o size data
  ({ rv with userdata := { s with mem := write s.mem addr bytes } },
   [Event.mem_write addr bytes size])

/-- Lines 55-58: `imp_mem_write_s`. -/
def imp_mem_write_s (o : byte_order) (write : Mem → Nat → List Nat → Mem)
    (rv : riscv_t (state_t Mem File)) (addr data : Nat) :
    riscv_t (state_t Mem File) × List Event :=
  let s := rv_userdata rv
  let size := sizeof_data riscv_half_t
  let bytes := object_bytes o size data
  ({ rv with userdata := { s with mem := write s.mem addr bytes } },
   [Event.mem_write addr bytes size])

/-- Lines 60-63: `imp_mem_write_b`. -/
def imp_mem_write_b (o : byte_order) (write : Mem → Nat → List Nat → Mem)
    (rv : riscv_t (state_t Mem File)) (addr data : Nat) :
    riscv_t (state_t Mem File) × List Event :=
  let s := rv_userdata rv
  let size := sizeof_data riscv_byte_t
  let bytes := object_bytes o size data
  ({ rv with userdata := { s with mem := write s.mem addr bytes } },
   [Event.mem_write addr bytes size])

/-! ## main.cpp : trap callbacks (lines 65-80)

`syscall_handler` is declared at line 23 and defined outside the sources; it is
a parameter.  `g_arg_compliance` is the global flag of line 16. -/

/-- Lines 65-75: `imp_on_ecall`. -/
def imp_on_ecall (g_arg_compliance : Bool)
    (syscall_handler : riscv_t (state_t Mem File) → riscv_t (state_t Mem File))
    (rv : riscv_t (state_t Mem File)) (_addr _inst : Nat) :
    riscv_t (state_t Mem File) × List Event :=
  let s := rv_userdata rv
  if g_arg_compliance then
    ({ rv with userdata := { s with done := true } }, [])
  else
    (syscall_handler rv, [Event.syscall_handler])

/-- Lines 77-80: `imp_on_ebreak`. -/
def imp_on_ebreak (rv : riscv_t (state_t Mem File)) (_addr _inst : Nat) :
    riscv_t (state_t Mem File) × List Event :=
  let s := rv_userdata rv
  ({ rv with userdata := { s with done := true } }, [])

/-! ## main.cpp : run loops (lines 82-123)

`rv_step` is defined outside the sources and is a parameter: it receives the
processor and the cycle count the driver passes, and returns the processor
after the call (host state included, since trap callbacks run inside it).
`state` is the object `rv_userdata(rv)` points to, as `main` passes
`state.get()` for both.  A loop need not terminate; each function takes a bound
on the number of evaluations of the loop condition and returns the events so
far together with the final processor, or `none` when the bound was reached
with the loop still running. -/

/-- Lines 83-94: `run_and_trace`.  `find_symbol` stands for `elf.find_symbol`. -/
def run_and_trace (rv_step : riscv_t (state_t Mem File) → Nat → riscv_t (state_t Mem File))
    (find_symbol : Nat → Option String) :
    Nat → riscv_t (state_t Mem File) → List Event × Option (riscv_t (state_t Mem File))
  | 0, _ => ([], none)
  | fuel + 1, rv =>
    let cycles_per_step := 1
    if (rv_userdata rv).done then ([Event.check_done true], some rv)
    else
      let pc := rv_get_pc rv
      let sym := find_symbol pc
      let rv1 := rv_step rv cycles_per_step
      let r := run_and_trace rv_step find_symbol fuel rv1
      (Event.check_done false :: Event.print_trace pc (sym.getD "") ::
        Event.rv_step cycles_per_step :: r.1, r.2)

/-- The conversion `int(clocks)` of a `uint32_t`. -/
def to_int (clocks : Nat) : Int :=
  if clocks < 2 ^ 31 then (clocks : Int) else (clocks : Int) - 2 ^ 32

/-- Lines 102-112: the loop of `run_and_show_mips`.  `clock k` is the result of
the `k`-th call of `clock()`; `start` and `clocks` are the local variables. -/
def run_and_show_mips_loop
    (rv_step : riscv_t (state_t Mem File) → Nat → riscv_t (state_t Mem File))
    (clock : Nat → Int) (CLOCKS_PER_SEC : Int) :
    Nat → riscv_t (state_t Mem File) → Int → Nat → Nat →
      List Event × Option (riscv_t (state_t Mem File))
  | 0, _, _, _, _ => ([], none)
  | fuel + 1, rv, start, clocks, k =>
    let cycles_per_step := 500
    if (rv_userdata rv).done then ([Event.check_done true], some rv)
    else
      let tick := decide (clock k - start ≥ CLOCKS_PER_SEC)
      let start1 := if tick then start + CLOCKS_PER_SEC else start
      let out := if tick then [Event.print_ips (to_int clocks)] else []
      let clocks1 := if tick then 0 else clocks
      let rv1 := rv_step rv cycles_per_step
      let clocks2 := (clocks1 + cycles_per_step) % 2 ^ 32
      let r := run_and_show_mips_loop rv_step clock CLOCKS_PER_SEC fuel rv1 start1 clocks2 (k + 1)
      (Event.check_done false :: (out ++ Event.rv_step cycles_per_step :: r.1), r.2)

/-- Lines 97-113: `run_and_show_mips`. -/
def run_and_show_mips
    (rv_step : riscv_t (state_t Mem File) → Nat → riscv_t (state_t Mem File))
    (clock : Nat → Int) (CLOCKS_PER_SEC : Int) (fuel : Nat) (rv : riscv_t (state_t Mem File)) :
    List Event × Option (riscv_t (state_t Mem File)) :=
  let start := clock 0
  let clocks := 0
  run_and_show_mips_loop rv_step clock CLOCKS_PER_SEC fuel rv start clocks 1

/-- Lines 116-123: `run`. -/
def run (rv_step : riscv_t (state_t Mem File) → Nat → riscv_t (state_t Mem File)) :
    Nat → riscv_t (state_t Mem File) → List Event × Option (riscv_t (state_t Mem File))
  | 0, _ => ([], none)
  | fuel + 1, rv =>
    let cycles_per_step := 100
    if (rv_userdata rv).done then ([Event.check_done true], some rv)
    else
      let rv1 := rv_step rv cycles_per_step
      let r := run rv_step fuel rv1
      (Event.check_done false :: Event.rv_step cycles_per_step :: r.1, r.2)

end handlers

/-! ## The discipline of the run loops -/

/-- Where a run loop stands with respect to its condition: no check is pending
(`idle`), the check of the current iteration found `done` clear (`clear`), or
some check found `done` set (`halted`). -/
inductive guard where
  | idle
  | clear
  | halted
  deriving DecidableEq, Repr

/-- A trace is guarded when every call of `rv_step` uses up a check of its own
that found `done` clear, and no call of `rv_step` comes after a check that
found `done` set. -/
def steps_guarded : guard → List Event → Bool
  | _, [] => true
  | guard.halted, Event.check_done _ :: t => steps_guarded guard.halted t
  | _, Event.check_done true :: t => steps_guarded guard.halted t
  | _, Event.check_done false :: t => steps_guarded guard.clear t
  | guard.clear, Event.rv_step _ :: t => steps_guarded guard.idle t
  | _, Event.rv_step _ :: _ => false
  | g, _ :: t => steps_guarded g t

/-! ## main.cpp : the signature dump (lines 191-206) -/

/-- The bytes of a 4-byte object after `bs` has been copied to its start. -/
def store_bytes (old bs : List Nat) : List Nat :=
  bs.take 4 ++ old.drop (bs.take 4).length

/-- Lines 200-204: the loop `for (uint32_t i = start; i <= end; i += 4)`.
`read mem addr size` stands for the bytes `memory::read(dst, addr, size)`
copies to `dst`; `value` is the local variable the bytes are copied into.  The
result is the events so far and whether the loop has ended. -/
def dump_loop {Mem : Type} (o : byte_order) (read : Mem → Nat → Nat → List Nat) (mem : Mem)
    (end_ : Nat) : Nat → Nat → Nat → List Event × Bool
  | 0, _, _ => ([], false)
  | fuel + 1, i, value =>
    if i ≤ end_ then
      let value1 := object_value o (store_bytes (object_bytes o 4 value) (read mem i 4))
      let r := dump_loop o read mem end_ fuel ((i + 4) % 2 ^ 32) value1
      (Event.mem_read i 4 :: Event.print_word value1 :: r.1, r.2)
    else ([], true)

/-- Lines 192-206: the signature dump of `main`.  `get_data_section_range` is
the result of `elf.get_data_section_range(start, end)` (`none` when it returns
false) and `begin_signature` the value of the symbol of that name, when the
image has one. -/
def signature_dump {Mem : Type} (o : byte_order) (read : Mem → Nat → Nat → List Nat) (mem : Mem)
    (g_arg_compliance : Bool) (get_data_section_range : Option (Nat × Nat))
    (begin_signature : Option Nat) (fuel : Nat) : List Event × Bool :=
  if g_arg_compliance then
    match get_data_section_range with
    | some (start, end_) =>
      let start1 := match begin_signature with
        | some st_value => st_value
        | none => start
      let value := 0
      dump_loop o read mem end_ fuel start1 value
    | none => ([], true)
  else ([], true)

/-- The addresses read in a trace, in order. -/
def read_addrs : List Event → List Nat
  | [] => []
  | Event.mem_read a _ :: t => a :: read_addrs t
  | _ :: t => read_addrs t

/-- The number of words printed in a trace. -/
def words_printed : List Event → Nat
  | [] => 0
  | Event.print_word _ :: t => words_printed t + 1
  | _ :: t => words_printed t

/-! ## Specification predicates and sample states -/

/-- A processor with all registers zero, and no user data. -/
def rv_zero : riscv_t Unit := { X := fun _ => 0, PC := 0, userdata := () }

/-- What a write handler has to do for a value `data` of `size` bytes: one call
of `memory.write`, at the address given, of `size` bytes that are the object
representation of `data`, with the memory updated by that call and nothing else
changed. -/
def writes_once {Mem File : Type} (o : byte_order) (write : Mem → Nat → List Nat → Mem)
    (rv : riscv_t (state_t Mem File)) (addr data size : Nat)
    (r : riscv_t (state_t Mem File) × List Event) : Prop :=
  ∃ bytes : List Nat,
    r.2 = [Event.mem_write addr bytes size] ∧
    bytes.length = size ∧ (∀ b ∈ bytes, b < 256) ∧ object_value o bytes = data ∧
    r.1.userdata.mem = write rv.userdata.mem addr bytes ∧
    r.1.userdata.done = rv.userdata.done ∧
    r.1.userdata.break_addr = rv.userdata.break_addr ∧
    r.1.userdata.fd_map = rv.userdata.fd_map ∧
    r.1.X = rv.X ∧ r.1.PC = rv.PC

/-- A memory that keeps the list of the writes made to it, latest first. -/
def log_write (mem : List (Nat × List Nat)) (addr : Nat) (bytes : List Nat) :
    List (Nat × List Nat) :=
  (addr, bytes) :: mem

/-- A processor whose host state has an empty write log and `done` clear. -/
def rv_host : riscv_t (state_t (List (Nat × List Nat)) Unit) :=
  { X := fun _ => 0, PC := 0,
    userdata := { mem := [], done := false, break_addr := 0, fd_map := fun _ => none } }

/-- The discipline of a trace, spelt out: the trace is guarded; every call of
`rv_step` in it is preceded by a check that found `done` clear, with no other
check and no other call of `rv_step` in between; and no call of `rv_step` comes
after a check that found `done` set. -/
def trace_disciplined (t : List Event) : Prop :=
  steps_guarded guard.idle t = true ∧
  (∀ pre c post, t = pre ++ Event.rv_step c :: post →
    ∃ pre1 mid, pre = pre1 ++ Event.check_done false :: mid ∧
      ∀ e ∈ mid, e.is_check = false ∧ e.is_step = false) ∧
  (∀ pre post, t = pre ++ Event.check_done true :: post → ∀ c, Event.rv_step c ∉ post)

/-- What each run loop has to satisfy, for every bound and every processor it
is entered with: its trace is disciplined; when `done` is set on entry it makes
no call of `rv_step` and, given room for one check, returns at once with the
processor untouched; and when it returns, `done` is set. -/
def loop_disciplined {Mem File : Type}
    (loop : Nat → riscv_t (state_t Mem File) →
      List Event × Option (riscv_t (state_t Mem File))) : Prop :=
  ∀ (fuel : Nat) (rv : riscv_t (state_t Mem File)),
    trace_disciplined (loop fuel rv).1 ∧
    (rv.userdata.done = true →
      step_calls (loop fuel rv).1 = 0 ∧
      loop (fuel + 1) rv = ([Event.check_done true], some rv)) ∧
    (∀ rv1, (loop fuel rv).2 = some rv1 → rv1.userdata.done = true)

/-- A step function that advances the PC by four bytes per cycle and sets
`done` once the PC has reached `0x320`. -/
def rv_step_to_320 (rv : riscv_t (state_t (List (Nat × List Nat)) Unit)) (cycles : Nat) :
    riscv_t (state_t (List (Nat × List Nat)) Unit) :=
  { rv with
    PC := rv.PC + 4 * cycles
    userdata := { rv.userdata with done := decide (0x320 ≤ rv.PC + 4 * cycles) } }

/-- The processor `rv_host` with `done` set. -/
def rv_halted : riscv_t (state_t (List (Nat × List Nat)) Unit) :=
  { rv_host with userdata := { rv_host.userdata with done := true } }

/-! # Theorems -/

/-! ## The register enumeration -/

/-- C7: the register enumeration has 32 enumerators whose values are pairwise
distinct and are exactly 0, 1, ..., 31 in declaration order; `rv_reg_zero` is 0,
`rv_reg_ra` is 1, `rv_reg_sp` is 2, `rv_reg_a0` to `rv_reg_a7` are 10 to 17 and
`rv_reg_t6` is 31. -/
theorem rv_reg_enum_values :
    rv_reg_enum.length = 32 ∧ rv_reg_enum.Nodup ∧ rv_reg_enum = List.range 32 ∧
    rv_reg_zero = 0 ∧ rv_reg_ra = 1 ∧ rv_reg_sp = 2 ∧
    [rv_reg_a0, rv_reg_a1, rv_reg_a2, rv_reg_a3, rv_reg_a4, rv_reg_a5, rv_reg_a6, rv_reg_a7]
      = [10, 11, 12, 13, 14, 15, 16, 17] ∧
    rv_reg_t6 = 31 := by
  have h : rv_reg_enum = List.range 32 := by decide
  refine ⟨by decide, ?_, h, rfl, rfl, rfl, rfl, rfl⟩
  rw [h]
  exact List.nodup_range 32

/-! ## The register-index parameter -/

theorem admits_uint32_t (v : Nat) : CType.uint32_t.admits v = true ↔ v < 2 ^ 32 := by
  simp [CType.admits, CType.sizeof]

theorem mem_rv_reg_enum (reg : Nat) : reg ∈ rv_reg_enum ↔ reg < 32 := by
  have h : rv_reg_enum = List.range 32 := by decide
  rw [h, List.mem_range]

/-- C4, as stated, fails: 32 is a value of the declared type of the parameter
`reg` of `rv_set_reg` and of `rv_get_reg`, and it is not an index of the
32-entry register file. -/
theorem reg_param_admits_32 :
    (reg_param rv_set_reg_decl).admits 32 = true ∧
    (reg_param rv_get_reg_decl).admits 32 = true ∧
    ¬ (32 < RV_NUM_REGS) ∧ 32 ∉ rv_reg_enum := by
  decide

/-- C4, amended: the parameter `reg` of `rv_set_reg` and of `rv_get_reg` is a
`uint32_t`, so it takes exactly the values below `2 ^ 32`; the valid register
indices are the values of the 32 enumerators, which are exactly the values below
32, and every one of them is a value of the parameter. -/
theorem reg_param_range (reg : Nat) :
    ((reg_param rv_set_reg_decl).admits reg = true ↔ reg < 2 ^ 32) ∧
    ((reg_param rv_get_reg_decl).admits reg = true ↔ reg < 2 ^ 32) ∧
    (reg ∈ rv_reg_enum ↔ reg < RV_NUM_REGS) ∧
    (reg < RV_NUM_REGS →
      (reg_param rv_set_reg_decl).admits reg = true ∧
      (reg_param rv_get_reg_decl).admits reg = true) := by
  have hs : reg_param rv_set_reg_decl = CType.uint32_t := rfl
  have hg : reg_param rv_get_reg_decl = CType.uint32_t := rfl
  have hn : RV_NUM_REGS = 32 := by decide
  rw [hs, hg, hn]
  refine ⟨admits_uint32_t reg, admits_uint32_t reg, mem_rv_reg_enum reg, ?_⟩
  intro h
  have h32 : reg < 2 ^ 32 := by omega
  exact ⟨(admits_uint32_t reg).2 h32, (admits_uint32_t reg).2 h32⟩

theorem reg_param_range_witness :
    (reg_param rv_set_reg_decl).admits rv_reg_t6 = true ∧
    (reg_param rv_get_reg_decl).admits rv_reg_t6 = true :=
  (reg_param_range rv_reg_t6).2.2.2 (by decide)

/-! ## The prototype of `rv_step` and its calls -/

/-- C2, evaluated on the sources: the prototype of `rv_step` in `riscv.h` has
the processor handle as its only parameter, each of the three calls in
`main.cpp` passes the handle and a cycle count, and so no call supplies the
arguments of the declared parameter list. -/
theorem rv_step_calls_do_not_match_decl :
    rv_step_decl.params = [CType.riscv_ptr] ∧
    run_and_trace_step_call = [CType.riscv_ptr, CType.uint32_t] ∧
    run_and_show_mips_step_call = [CType.riscv_ptr, CType.uint32_t] ∧
    run_step_call = [CType.riscv_ptr, CType.uint32_t] ∧
    call_matches rv_step_decl run_and_trace_step_call = false ∧
    call_matches rv_step_decl run_and_show_mips_step_call = false ∧
    call_matches rv_step_decl run_step_call = false := by
  decide

/-! ## The record `riscv_io_t` and its initialiser -/

/-- C3, evaluated on the sources: `riscv_io_t` has eight members and none for
instruction fetch, the initialiser in `main` lists nine handlers, and binding by
position gives `mem_read_w` the handler `imp_mem_ifetch` and every later member
the handler meant for the member before it; `imp_on_ebreak` is bound to no
member, `mem_read_s` receives a handler of another type, and the initialiser is
not well formed. -/
theorem io_initialiser_binding :
    riscv_io_t.length = 8 ∧ io_initialiser.length = 9 ∧
    bind_positional riscv_io_t io_initialiser =
      [(io_slot.mem_read_w, handler.imp_mem_ifetch),
       (io_slot.mem_read_s, handler.imp_mem_read_w),
       (io_slot.mem_read_b, handler.imp_mem_read_s),
       (io_slot.mem_write_w, handler.imp_mem_read_b),
       (io_slot.mem_write_s, handler.imp_mem_write_w),
       (io_slot.mem_write_b, handler.imp_mem_write_s),
       (io_slot.on_ecall, handler.imp_mem_write_b),
       (io_slot.on_ebreak, handler.imp_on_ecall)] ∧
    handler.imp_on_ebreak ∉ (bind_positional riscv_io_t io_initialiser).map Prod.snd ∧
    riscv_mem_read_s ≠ handler.sig handler.imp_mem_read_w ∧
    initialiser_well_formed riscv_io_t io_initialiser = false := by
  decide

/-! ## Register access -/

/-- C1: for every register index `i` from 1 to 31 and every value `v` (so for
every 32-bit value), reading register `i` after writing `v` to it returns `v`;
writing register 0 leaves the processor unchanged, and reading register 0
returns 0 in every state of the processor. -/
theorem rv_set_get_reg {U : Type} (rv : riscv_t U) (i v : Nat) (h1 : 1 ≤ i) (h31 : i ≤ 31) :
    rv_get_reg (rv_set_reg rv i v) i = v ∧
    rv_set_reg rv 0 v = rv ∧
    rv_get_reg rv 0 = 0 ∧
    rv_get_reg (rv_set_reg rv i v) 0 = 0 := by
  have hi : i % 32 = i := Nat.mod_eq_of_lt (by omega)
  have hne : ¬ (i % 32 = 0) := by omega
  refine ⟨?_, ?_, ?_, ?_⟩
  · simp [rv_get_reg, rv_set_reg, hne]
  · simp [rv_set_reg]
  · simp [rv_get_reg]
  · simp [rv_get_reg]

theorem rv_set_get_reg_witness :
    rv_get_reg (rv_set_reg rv_zero rv_reg_a0 0xDEADBEEF) rv_reg_a0 = 0xDEADBEEF ∧
    rv_set_reg rv_zero 0 0xDEADBEEF = rv_zero ∧
    rv_get_reg rv_zero 0 = 0 ∧
    rv_get_reg (rv_set_reg rv_zero rv_reg_a0 0xDEADBEEF) 0 = 0 :=
  rv_set_get_reg rv_zero rv_reg_a0 0xDEADBEEF (by decide) (by decide)

/-! ## Trap callbacks -/

/-- C5: for every processor, address and instruction word, `imp_on_ebreak`
returns with `done` set, leaves `mem`, `break_addr` and `fd_map` of the host
state and the registers and PC of the processor as they were, calls nothing,
and gives the same result for every other address and instruction word. -/
theorem imp_on_ebreak_sets_done {Mem File : Type} (rv : riscv_t (state_t Mem File))
    (addr inst : Nat) :
    (imp_on_ebreak rv addr inst).1.userdata.done = true ∧
    (imp_on_ebreak rv addr inst).1.userdata.mem = rv.userdata.mem ∧
    (imp_on_ebreak rv addr inst).1.userdata.break_addr = rv.userdata.break_addr ∧
    (imp_on_ebreak rv addr inst).1.userdata.fd_map = rv.userdata.fd_map ∧
    (imp_on_ebreak rv addr inst).1.X = rv.X ∧
    (imp_on_ebreak rv addr inst).1.PC = rv.PC ∧
    (imp_on_ebreak rv addr inst).2 = [] ∧
    ∀ addr1 inst1 : Nat, imp_on_ebreak rv addr1 inst1 = imp_on_ebreak rv addr inst :=
  ⟨rfl, rfl, rfl, rfl, rfl, rfl, rfl, fun _ _ => rfl⟩

/-- C6: with compliance mode on, for every address and instruction word
`imp_on_ecall` sets `done`, changes nothing else and does not call the
system-call handler; with compliance mode off it calls the system-call handler
exactly once, on the processor it was given, and the state it returns (the
`done` flag included) is the one the handler left. -/
theorem imp_on_ecall_compliance {Mem File : Type}
    (syscall_handler : riscv_t (state_t Mem File) → riscv_t (state_t Mem File))
    (rv : riscv_t (state_t Mem File)) (addr inst : Nat) :
    ((imp_on_ecall true syscall_handler rv addr inst).1.userdata.done = true ∧
     (imp_on_ecall true syscall_handler rv addr inst).1 =
        { rv with userdata := { rv.userdata with done := true } } ∧
     (imp_on_ecall true syscall_handler rv addr inst).2 = []) ∧
    ((imp_on_ecall false syscall_handler rv addr inst).2 = [Event.syscall_handler] ∧
     ((imp_on_ecall false syscall_handler rv addr inst).2.filter Event.is_syscall).length = 1 ∧
     (imp_on_ecall false syscall_handler rv addr inst).1 = syscall_handler rv ∧
     (imp_on_ecall false syscall_handler rv addr inst).1.userdata.done =
        (syscall_handler rv).userdata.done) :=
  ⟨⟨rfl, rfl, rfl⟩, ⟨rfl, rfl, rfl, rfl⟩⟩

/-! ## Write handlers -/

theorem le_bytes_length (n v : Nat) : (le_bytes n v).length = n := by
  induction n generalizing v with
  | zero => rfl
  | succ n ih => simp [le_bytes, ih]

theorem le_bytes_lt (n v : Nat) : ∀ b ∈ le_bytes n v, b < 256 := by
  induction n generalizing v with
  | zero => intro b hb; simp [le_bytes] at hb
  | succ n ih =>
    intro b hb
    simp only [le_bytes, List.mem_cons] at hb
    rcases hb with hb | hb
    · rw [hb]; exact Nat.mod_lt v (by decide)
    · exact ih (v / 256) b hb

theorem le_value_le_bytes (n v : Nat) : le_value (le_bytes n v) = v % 256 ^ n := by
  induction n generalizing v with
  | zero => simp [le_bytes, le_value, Nat.mod_one]
  | succ n ih => rw [le_bytes, le_value, ih, pow_succ', Nat.mod_mul]

theorem object_bytes_length (o : byte_order) (n v : Nat) : (object_bytes o n v).length = n := by
  cases o <;> simp [object_bytes, le_bytes_length]

theorem object_bytes_lt (o : byte_order) (n v : Nat) : ∀ b ∈ object_bytes o n v, b < 256 := by
  cases o
  · exact le_bytes_lt n v
  · intro b hb
    simp only [object_bytes, List.mem_reverse] at hb
    exact le_bytes_lt n v b hb

theorem object_value_object_bytes (o : byte_order) (n v : Nat) :
    object_value o (object_bytes o n v) = v % 256 ^ n := by
  cases o <;> simp [object_value, object_bytes, le_value_le_bytes]

/-- C9: for every address and every word, halfword and byte value, each of
`imp_mem_write_w`, `imp_mem_write_s` and `imp_mem_write_b` makes exactly one
call of `memory.write`, at the address it was given, of 4, 2 and 1 bytes
respectively, and the bytes written are those of the value passed in, whatever
the byte order of the host. -/
theorem imp_mem_write_once {Mem File : Type} (o : byte_order)
    (write : Mem → Nat → List Nat → Mem) (rv : riscv_t (state_t Mem File))
    (addr w h b : Nat) (hw : w < 2 ^ 32) (hh : h < 2 ^ 16) (hb : b < 2 ^ 8) :
    writes_once o write rv addr w 4 (imp_mem_write_w o write rv addr w) ∧
    writes_once o write rv addr h 2 (imp_mem_write_s o write rv addr h) ∧
    writes_once o write rv addr b 1 (imp_mem_write_b o write rv addr b) := by
  refine ⟨⟨object_bytes o 4 w, rfl, object_bytes_length o 4 w, object_bytes_lt o 4 w, ?_,
      rfl, rfl, rfl, rfl, rfl, rfl⟩,
    ⟨object_bytes o 2 h, rfl, object_bytes_length o 2 h, object_bytes_lt o 2 h, ?_,
      rfl, rfl, rfl, rfl, rfl, rfl⟩,
    ⟨object_bytes o 1 b, rfl, object_bytes_length o 1 b, object_bytes_lt o 1 b, ?_,
      rfl, rfl, rfl, rfl, rfl, rfl⟩⟩
  · rw [object_value_object_bytes]; exact Nat.mod_eq_of_lt (by norm_num; omega)
  · rw [object_value_object_bytes]; exact Nat.mod_eq_of_lt (by norm_num; omega)
  · rw [object_value_object_bytes]; exact Nat.mod_eq_of_lt (by norm_num; omega)

theorem imp_mem_write_once_witness :
    writes_once byte_order.little log_write rv_host 0x1000 0xDEADBEEF 4
      (imp_mem_write_w byte_order.little log_write rv_host 0x1000 0xDEADBEEF) ∧
    writes_once byte_order.little log_write rv_host 0x1000 0xBEEF 2
      (imp_mem_write_s byte_order.little log_write rv_host 0x1000 0xBEEF) ∧
    writes_once byte_order.little log_write rv_host 0x1000 0xEF 1
      (imp_mem_write_b byte_order.little log_write rv_host 0x1000 0xEF) :=
  imp_mem_write_once byte_order.little log_write rv_host 0x1000 0xDEADBEEF 0xBEEF 0xEF
    (by decide) (by decide) (by decide)

/-! ## Run loops -/

/-! ### What a guarded trace rules out -/

theorem steps_guarded_halted (t : List Event) (h : steps_guarded guard.halted t = true) :
    ∀ c, Event.rv_step c ∉ t := by
  induction t with
  | nil => intro c hc; simp at hc
  | cons e t ih =>
    cases e <;> simp only [steps_guarded] at h <;>
      first
      | exact absurd h (by decide)
      | (intro c hc
         simp only [List.mem_cons] at hc
         rcases hc with hc | hc
         · cases hc
         · exact ih h c hc)

theorem steps_guarded_tail (g : guard) (e : Event) (t : List Event)
    (h : steps_guarded g (e :: t) = true) : ∃ g1, steps_guarded g1 t = true := by
  cases g <;> cases e <;> (try simp only [steps_guarded] at h) <;>
    first
    | exact absurd h (by decide)
    | exact ⟨_, h⟩
    | (rename_i b; cases b <;> simp only [steps_guarded] at h <;> exact ⟨_, h⟩)

/-- In a guarded trace no call of `rv_step` comes after a check that found
`done` set. -/
theorem steps_guarded_no_step_after_done (pre post : List Event) :
    ∀ g, steps_guarded g (pre ++ Event.check_done true :: post) = true →
      ∀ c, Event.rv_step c ∉ post := by
  induction pre with
  | nil =>
    intro g h
    apply steps_guarded_halted
    cases g <;> simpa only [List.nil_append, steps_guarded] using h
  | cons e pre ih =>
    intro g h
    obtain ⟨g1, h1⟩ := steps_guarded_tail g e _ h
    exact ih g1 h1

/-- In a guarded trace every call of `rv_step` is preceded by a check that
found `done` clear, with no other check and no other call of `rv_step` between
the two. -/
theorem steps_guarded_step_after_clear (c : Nat) (pre post : List Event) :
    ∀ g, steps_guarded g (pre ++ Event.rv_step c :: post) = true →
      (g = guard.clear ∧ ∀ e ∈ pre, e.is_check = false ∧ e.is_step = false) ∨
      (∃ pre1 mid, pre = pre1 ++ Event.check_done false :: mid ∧
        ∀ e ∈ mid, e.is_check = false ∧ e.is_step = false) := by
  induction pre with
  | nil =>
    intro g h
    left
    cases g <;> simp only [List.nil_append, steps_guarded] at h
    · exact absurd h (by decide)
    · exact ⟨rfl, fun e he => by simp at he⟩
    · exact absurd h (by decide)
  | cons e pre ih =>
    intro g h
    have extend : ∀ g1, steps_guarded g1 (pre ++ Event.rv_step c :: post) = true →
        g1 ≠ guard.clear →
        ∃ pre1 mid, e :: pre = pre1 ++ Event.check_done false :: mid ∧
          ∀ x ∈ mid, x.is_check = false ∧ x.is_step = false := by
      intro g1 h1 hne
      rcases ih g1 h1 with ⟨hg, _⟩ | ⟨pre1, mid, hpre, hmid⟩
      · exact absurd hg hne
      · exact ⟨e :: pre1, mid, by rw [hpre]; rfl, hmid⟩
    have keep : ∀ g1, steps_guarded g1 (pre ++ Event.rv_step c :: post) = true →
        e.is_check = false → e.is_step = false → g1 = g →
        (g = guard.clear ∧ ∀ x ∈ e :: pre, x.is_check = false ∧ x.is_step = false) ∨
        (∃ pre1 mid, e :: pre = pre1 ++ Event.check_done false :: mid ∧
          ∀ x ∈ mid, x.is_check = false ∧ x.is_step = false) := by
      intro g1 h1 hc hs hg
      rcases ih g1 h1 with ⟨hg1, hall⟩ | ⟨pre1, mid, hpre, hmid⟩
      · left
        refine ⟨hg ▸ hg1, ?_⟩
        intro x hx
        simp only [List.mem_cons] at hx
        rcases hx with hx | hx
        · rw [hx]; exact ⟨hc, hs⟩
        · exact hall x hx
      · right
        exact ⟨e :: pre1, mid, by rw [hpre]; rfl, hmid⟩
    cases e with
    | check_done b =>
      right
      cases b with
      | true =>
        cases g <;> simp only [List.cons_append, steps_guarded] at h <;>
          exact extend guard.halted h (by decide)
      | false =>
        cases g
        case halted =>
          simp only [List.cons_append, steps_guarded] at h
          exact extend guard.halted h (by decide)
        all_goals
          simp only [List.cons_append, steps_guarded] at h
          rcases ih guard.clear h with ⟨_, hall⟩ | ⟨pre1, mid, hpre, hmid⟩
          · exact ⟨[], pre, rfl, hall⟩
          · exact ⟨Event.check_done false :: pre1, mid, by rw [hpre]; rfl, hmid⟩
    | rv_step c1 =>
      right
      cases g <;> simp only [List.cons_append, steps_guarded] at h
      · exact absurd h (by decide)
      · exact extend guard.idle h (by decide)
      · exact absurd h (by decide)
    | mem_write a bs n =>
      simp only [List.cons_append, steps_guarded] at h
      exact keep g h rfl rfl rfl
    | mem_read a n =>
      simp only [List.cons_append, steps_guarded] at h
      exact keep g h rfl rfl rfl
    | syscall_handler =>
      simp only [List.cons_append, steps_guarded] at h
      exact keep g h rfl rfl rfl
    | print_trace pc sym =>
      simp only [List.cons_append, steps_guarded] at h
      exact keep g h rfl rfl rfl
    | print_ips n =>
      simp only [List.cons_append, steps_guarded] at h
      exact keep g h rfl rfl rfl
    | print_word v =>
      simp only [List.cons_append, steps_guarded] at h
      exact keep g h rfl rfl rfl

section loops

variable {Mem File : Type}

theorem run_guarded (rv_step : riscv_t (state_t Mem File) → Nat → riscv_t (state_t Mem File)) :
    ∀ (fuel : Nat) (rv : riscv_t (state_t Mem File)),
      steps_guarded guard.idle (run rv_step fuel rv).1 = true := by
  intro fuel
  induction fuel with
  | zero => intro rv; rfl
  | succ n ih =>
    intro rv
    by_cases hd : (rv_userdata rv).done = true
    · simp [run, hd, steps_guarded]
    · simp [run, hd, steps_guarded, ih]

theorem run_returns_done
    (rv_step : riscv_t (state_t Mem File) → Nat → riscv_t (state_t Mem File)) :
    ∀ (fuel : Nat) (rv rv1 : riscv_t (state_t Mem File)),
      (run rv_step fuel rv).2 = some rv1 → rv1.userdata.done = true := by
  intro fuel
  induction fuel with
  | zero => intro rv rv1 h; simp [run] at h
  | succ n ih =>
    intro rv rv1 h
    by_cases hd : (rv_userdata rv).done = true
    · simp [run, hd] at h
      rw [← h]; exact hd
    · simp [run, hd] at h
      exact ih _ _ h

theorem run_done_on_entry
    (rv_step : riscv_t (state_t Mem File) → Nat → riscv_t (state_t Mem File))
    (fuel : Nat) (rv : riscv_t (state_t Mem File)) (hd : rv.userdata.done = true) :
    step_calls (run rv_step fuel rv).1 = 0 ∧
    run rv_step (fuel + 1) rv = ([Event.check_done true], some rv) := by
  have hd1 : (rv_userdata rv).done = true := hd
  constructor
  · cases fuel with
    | zero => rfl
    | succ n => simp [run, hd1, step_calls, Event.is_step]
  · simp [run, hd1]

theorem run_and_trace_guarded
    (rv_step : riscv_t (state_t Mem File) → Nat → riscv_t (state_t Mem File))
    (find_symbol : Nat → Option String) :
    ∀ (fuel : Nat) (rv : riscv_t (state_t Mem File)),
      steps_guarded guard.idle (run_and_trace rv_step find_symbol fuel rv).1 = true := by
  intro fuel
  induction fuel with
  | zero => intro rv; rfl
  | succ n ih =>
    intro rv
    by_cases hd : (rv_userdata rv).done = true
    · simp [run_and_trace, hd, steps_guarded]
    · simp [run_and_trace, hd, steps_guarded, ih]

theorem run_and_trace_returns_done
    (rv_step : riscv_t (state_t Mem File) → Nat → riscv_t (state_t Mem File))
    (find_symbol : Nat → Option String) :
    ∀ (fuel : Nat) (rv rv1 : riscv_t (state_t Mem File)),
      (run_and_trace rv_step find_symbol fuel rv).2 = some rv1 → rv1.userdata.done = true := by
  intro fuel
  induction fuel with
  | zero => intro rv rv1 h; simp [run_and_trace] at h
  | succ n ih =>
    intro rv rv1 h
    by_cases hd : (rv_userdata rv).done = true
    · simp [run_and_trace, hd] at h
      rw [← h]; exact hd
    · simp [run_and_trace, hd] at h
      exact ih _ _ h

theorem run_and_trace_done_on_entry
    (rv_step : riscv_t (state_t Mem File) → Nat → riscv_t (state_t Mem File))
    (find_symbol : Nat → Option String)
    (fuel : Nat) (rv : riscv_t (state_t Mem File)) (hd : rv.userdata.done = true) :
    step_calls (run_and_trace rv_step find_symbol fuel rv).1 = 0 ∧
    run_and_trace rv_step find_symbol (fuel + 1) rv = ([Event.check_done true], some rv) := by
  have hd1 : (rv_userdata rv).done = true := hd
  constructor
  · cases fuel with
    | zero => rfl
    | succ n => simp [run_and_trace, hd1, step_calls, Event.is_step]
  · simp [run_and_trace, hd1]

theorem steps_guarded_clear_out (clocks : Nat) (tick : Bool) (t : List Event) :
    steps_guarded guard.clear
      ((if tick = true then [Event.print_ips (to_int clocks)] else []) ++ t) =
    steps_guarded guard.clear t := by
  cases tick <;> simp [steps_guarded]

theorem run_and_show_mips_loop_guarded
    (rv_step : riscv_t (state_t Mem File) → Nat → riscv_t (state_t Mem File))
    (clock : Nat → Int) (CLOCKS_PER_SEC : Int) :
    ∀ (fuel : Nat) (rv : riscv_t (state_t Mem File)) (start : Int) (clocks k : Nat),
      steps_guarded guard.idle
        (run_and_show_mips_loop rv_step clock CLOCKS_PER_SEC fuel rv start clocks k).1 = true := by
  intro fuel
  induction fuel with
  | zero => intro rv start clocks k; rfl
  | succ n ih =>
    intro rv start clocks k
    by_cases hd : (rv_userdata rv).done = true
    · simp [run_and_show_mips_loop, hd, steps_guarded]
    · simp only [run_and_show_mips_loop, hd, Bool.false_eq_true, if_false, steps_guarded]
      rw [steps_guarded_clear_out]
      simp only [steps_guarded]
      exact ih _ _ _ _

theorem run_and_show_mips_loop_returns_done
    (rv_step : riscv_t (state_t Mem File) → Nat → riscv_t (state_t Mem File))
    (clock : Nat → Int) (CLOCKS_PER_SEC : Int) :
    ∀ (fuel : Nat) (rv : riscv_t (state_t Mem File)) (start : Int) (clocks k : Nat)
      (rv1 : riscv_t (state_t Mem File)),
      (run_and_show_mips_loop rv_step clock CLOCKS_PER_SEC fuel rv start clocks k).2 = some rv1 →
      rv1.userdata.done = true := by
  intro fuel
  induction fuel with
  | zero => intro rv start clocks k rv1 h; simp [run_and_show_mips_loop] at h
  | succ n ih =>
    intro rv start clocks k rv1 h
    by_cases hd : (rv_userdata rv).done = true
    · simp [run_and_show_mips_loop, hd] at h
      rw [← h]; exact hd
    · simp only [run_and_show_mips_loop, hd, Bool.false_eq_true, if_false] at h
      exact ih _ _ _ _ _ h

theorem run_and_show_mips_done_on_entry
    (rv_step : riscv_t (state_t Mem File) → Nat → riscv_t (state_t Mem File))
    (clock : Nat → Int) (CLOCKS_PER_SEC : Int)
    (fuel : Nat) (rv : riscv_t (state_t Mem File)) (hd : rv.userdata.done = true) :
    step_calls (run_and_show_mips rv_step clock CLOCKS_PER_SEC fuel rv).1 = 0 ∧
    run_and_show_mips rv_step clock CLOCKS_PER_SEC (fuel + 1) rv =
      ([Event.check_done true], some rv) := by
  have hd1 : (rv_userdata rv).done = true := hd
  constructor
  · cases fuel with
    | zero => rfl
    | succ n => simp [run_and_show_mips, run_and_show_mips_loop, hd1, step_calls, Event.is_step]
  · simp [run_and_show_mips, run_and_show_mips_loop, hd1]

theorem trace_disciplined_of_guarded (t : List Event)
    (h : steps_guarded guard.idle t = true) : trace_disciplined t := by
  refine ⟨h, ?_, ?_⟩
  · intro pre c post ht
    rw [ht] at h
    rcases steps_guarded_step_after_clear c pre post guard.idle h with ⟨hg, _⟩ | hr
    · exact absurd hg (by decide)
    · exact hr
  · intro pre post ht
    rw [ht] at h
    exact steps_guarded_no_step_after_done pre post guard.idle h

/-- C8: in each of `run_and_trace`, `run_and_show_mips` and `run`, whatever
`rv_step` does, every call of `rv_step` follows a check of its own iteration
that found `done` clear and no call of `rv_step` follows a check that found
`done` set; with `done` set on entry the loop makes no call of `rv_step` and
returns after its first check; and whenever the loop returns, `done` is set. -/
theorem run_loops_disciplined
    (rv_step : riscv_t (state_t Mem File) → Nat → riscv_t (state_t Mem File))
    (find_symbol : Nat → Option String) (clock : Nat → Int) (CLOCKS_PER_SEC : Int) :
    loop_disciplined (run_and_trace rv_step find_symbol) ∧
    loop_disciplined (run_and_show_mips rv_step clock CLOCKS_PER_SEC) ∧
    loop_disciplined (run rv_step) :=
  ⟨fun fuel rv =>
      ⟨trace_disciplined_of_guarded _ (run_and_trace_guarded rv_step find_symbol fuel rv),
       run_and_trace_done_on_entry rv_step find_symbol fuel rv,
       run_and_trace_returns_done rv_step find_symbol fuel rv⟩,
   fun fuel rv =>
      ⟨trace_disciplined_of_guarded _
          (run_and_show_mips_loop_guarded rv_step clock CLOCKS_PER_SEC fuel rv _ _ _),
       run_and_show_mips_done_on_entry rv_step clock CLOCKS_PER_SEC fuel rv,
       run_and_show_mips_loop_returns_done rv_step clock CLOCKS_PER_SEC fuel rv _ _ _⟩,
   fun fuel rv =>
      ⟨trace_disciplined_of_guarded _ (run_guarded rv_step fuel rv),
       run_done_on_entry rv_step fuel rv,
       run_returns_done rv_step fuel rv⟩⟩

end loops

/-! ### A run that halts -/

theorem run_loops_disciplined_witness :
    ((run rv_step_to_320 5 rv_host).1 =
        [Event.check_done false, Event.rv_step 100, Event.check_done false, Event.rv_step 100,
         Event.check_done true] ∧
      steps_guarded guard.idle (run rv_step_to_320 5 rv_host).1 = true ∧
      (∃ rv1, (run rv_step_to_320 5 rv_host).2 = some rv1 ∧ rv1.userdata.done = true) ∧
      step_calls (run rv_step_to_320 5 rv_halted).1 = 0) ∧
    ((run_and_show_mips rv_step_to_320 (fun k => 600 * k) 1000 5 rv_host).1 =
        [Event.check_done false, Event.rv_step 500, Event.check_done true] ∧
      steps_guarded guard.idle
        (run_and_show_mips rv_step_to_320 (fun k => 600 * k) 1000 5 rv_host).1 = true ∧
      (∃ rv1, (run_and_show_mips rv_step_to_320 (fun k => 600 * k) 1000 5 rv_host).2 = some rv1 ∧
        rv1.userdata.done = true) ∧
      step_calls (run_and_show_mips rv_step_to_320 (fun k => 600 * k) 1000 5 rv_halted).1 = 0) ∧
    ((run_and_trace rv_step_to_320 (fun _ => none) 201 rv_host).1.take 4 =
        [Event.check_done false, Event.print_trace 0 "", Event.rv_step 1,
         Event.check_done false] ∧
      steps_guarded guard.idle
        (run_and_trace rv_step_to_320 (fun _ => none) 201 rv_host).1 = true ∧
      (∃ rv1, (run_and_trace rv_step_to_320 (fun _ => none) 3 (rv_step_to_320 rv_host 198)).2
          = some rv1 ∧ rv1.userdata.done = true) ∧
      step_calls (run_and_trace rv_step_to_320 (fun _ => none) 5 rv_halted).1 = 0) := by
  have h := run_loops_disciplined rv_step_to_320 (fun _ => none) (fun k => 600 * k) 1000
  refine ⟨⟨by decide, (h.2.2 5 rv_host).1.1, ⟨_, rfl, (h.2.2 5 rv_host).2.2 _ rfl⟩,
      ((h.2.2 5 rv_halted).2.1 rfl).1⟩,
    ⟨by decide, (h.2.1 5 rv_host).1.1, ⟨_, rfl, (h.2.1 5 rv_host).2.2 _ rfl⟩,
      ((h.2.1 5 rv_halted).2.1 rfl).1⟩,
    ⟨by decide, (h.1 201 rv_host).1.1,
      ⟨_, rfl, (h.1 3 (rv_step_to_320 rv_host 198)).2.2 _ rfl⟩,
      ((h.1 5 rv_halted).2.1 rfl).1⟩⟩

/-! ### Termination of the run loops when the program halts -/

/-- When the `n`-th call of `rv_step` is the first to leave `done` set, `run`
returns after `n + 1` checks, having called `rv_step` exactly `n` times, with
the processor that call left. -/
theorem run_returns {Mem File : Type}
    (rv_step : riscv_t (state_t Mem File) → Nat → riscv_t (state_t Mem File)) (n : Nat) :
    ∀ rv : riscv_t (state_t Mem File),
      (∀ j, j < n → ((fun r => rv_step r 100)^[j] rv).userdata.done = false) →
      ((fun r => rv_step r 100)^[n] rv).userdata.done = true →
      (run rv_step (n + 1) rv).2 = some ((fun r => rv_step r 100)^[n] rv) ∧
      step_calls (run rv_step (n + 1) rv).1 = n := by
  induction n with
  | zero =>
    intro rv _ hd
    have hd1 : (rv_userdata rv).done = true := hd
    simp [run, hd1, step_calls, Event.is_step]
  | succ n ih =>
    intro rv hlt hd
    have h0 : (rv_userdata rv).done = false := hlt 0 (Nat.succ_pos n)
    have hstep := ih (rv_step rv 100)
      (fun j hj => by
        have := hlt (j + 1) (Nat.succ_lt_succ hj)
        rwa [Function.iterate_succ_apply] at this)
      (by rwa [Function.iterate_succ_apply] at hd)
    rw [Function.iterate_succ_apply]
    constructor
    · rw [run]
      simp only [h0, Bool.false_eq_true, if_false]
      exact hstep.1
    · rw [run]
      simp only [h0, Bool.false_eq_true, if_false]
      have h2 := hstep.2
      simp only [step_calls, List.filter, Event.is_step] at h2 ⊢
      simp [h2]

/-- The same for `run_and_trace`, which passes one cycle per call. -/
theorem run_and_trace_returns {Mem File : Type}
    (rv_step : riscv_t (state_t Mem File) → Nat → riscv_t (state_t Mem File))
    (find_symbol : Nat → Option String) (n : Nat) :
    ∀ rv : riscv_t (state_t Mem File),
      (∀ j, j < n → ((fun r => rv_step r 1)^[j] rv).userdata.done = false) →
      ((fun r => rv_step r 1)^[n] rv).userdata.done = true →
      (run_and_trace rv_step find_symbol (n + 1) rv).2 = some ((fun r => rv_step r 1)^[n] rv) ∧
      step_calls (run_and_trace rv_step find_symbol (n + 1) rv).1 = n := by
  induction n with
  | zero =>
    intro rv _ hd
    have hd1 : (rv_userdata rv).done = true := hd
    simp [run_and_trace, hd1, step_calls, Event.is_step]
  | succ n ih =>
    intro rv hlt hd
    have h0 : (rv_userdata rv).done = false := hlt 0 (Nat.succ_pos n)
    have hstep := ih (rv_step rv 1)
      (fun j hj => by
        have := hlt (j + 1) (Nat.succ_lt_succ hj)
        rwa [Function.iterate_succ_apply] at this)
      (by rwa [Function.iterate_succ_apply] at hd)
    rw [Function.iterate_succ_apply]
    constructor
    · rw [run_and_trace]
      simp only [h0, Bool.false_eq_true, if_false]
      exact hstep.1
    · rw [run_and_trace]
      simp only [h0, Bool.false_eq_true, if_false]
      have h2 := hstep.2
      simp only [step_calls, List.filter, Event.is_step] at h2 ⊢
      simp [h2]

theorem step_calls_out (clocks : Nat) (tick : Bool) (t : List Event) :
    step_calls ((if tick = true then [Event.print_ips (to_int clocks)] else []) ++ t) =
    step_calls t := by
  cases tick <;> simp [step_calls, Event.is_step]

theorem run_and_show_mips_loop_returns {Mem File : Type}
    (rv_step : riscv_t (state_t Mem File) → Nat → riscv_t (state_t Mem File))
    (clock : Nat → Int) (CLOCKS_PER_SEC : Int) (n : Nat) :
    ∀ (rv : riscv_t (state_t Mem File)) (start : Int) (clocks k : Nat),
      (∀ j, j < n → ((fun r => rv_step r 500)^[j] rv).userdata.done = false) →
      ((fun r => rv_step r 500)^[n] rv).userdata.done = true →
      (run_and_show_mips_loop rv_step clock CLOCKS_PER_SEC (n + 1) rv start clocks k).2
        = some ((fun r => rv_step r 500)^[n] rv) ∧
      step_calls
        (run_and_show_mips_loop rv_step clock CLOCKS_PER_SEC (n + 1) rv start clocks k).1 = n := by
  induction n with
  | zero =>
    intro rv start clocks k _ hd
    have hd1 : (rv_userdata rv).done = true := hd
    simp [run_and_show_mips_loop, hd1, step_calls, Event.is_step]
  | succ n ih =>
    intro rv start clocks k hlt hd
    have h0 : (rv_userdata rv).done = false := hlt 0 (Nat.succ_pos n)
    rw [Function.iterate_succ_apply]
    rw [run_and_show_mips_loop]
    simp only [h0, Bool.false_eq_true, if_false]
    have hstep := ih (rv_step rv 500)
      (if decide (clock k - start ≥ CLOCKS_PER_SEC) = true then start + CLOCKS_PER_SEC
        else start)
      (((if decide (clock k - start ≥ CLOCKS_PER_SEC) = true then 0 else clocks) + 500) % 2 ^ 32)
      (k + 1)
      (fun j hj => by
        have := hlt (j + 1) (Nat.succ_lt_succ hj)
        rwa [Function.iterate_succ_apply] at this)
      (by rwa [Function.iterate_succ_apply] at hd)
    refine ⟨hstep.1, ?_⟩
    have h2 := hstep.2
    have hcons : ∀ t : List Event, step_calls (Event.check_done false :: t) = step_calls t := by
      intro t; simp [step_calls, Event.is_step]
    have hcons2 : ∀ (c : Nat) (t : List Event),
        step_calls (Event.rv_step c :: t) = step_calls t + 1 := by
      intro c t; simp [step_calls, Event.is_step]
    rw [hcons, step_calls_out, hcons2, h2]

/-- The same for `run_and_show_mips`, which passes 500 cycles per call. -/
theorem run_and_show_mips_returns {Mem File : Type}
    (rv_step : riscv_t (state_t Mem File) → Nat → riscv_t (state_t Mem File))
    (clock : Nat → Int) (CLOCKS_PER_SEC : Int) (n : Nat) (rv : riscv_t (state_t Mem File))
    (hlt : ∀ j, j < n → ((fun r => rv_step r 500)^[j] rv).userdata.done = false)
    (hd : ((fun r => rv_step r 500)^[n] rv).userdata.done = true) :
    (run_and_show_mips rv_step clock CLOCKS_PER_SEC (n + 1) rv).2
      = some ((fun r => rv_step r 500)^[n] rv) ∧
    step_calls (run_and_show_mips rv_step clock CLOCKS_PER_SEC (n + 1) rv).1 = n :=
  run_and_show_mips_loop_returns rv_step clock CLOCKS_PER_SEC n rv _ _ _ hlt hd

/-! ## The signature dump -/

theorem dump_loop_top {Mem : Type} (o : byte_order) (read : Mem → Nat → Nat → List Nat)
    (mem : Mem) :
    ∀ (fuel i value : Nat), i < 2 ^ 32 →
      (dump_loop o read mem 0xFFFFFFFF fuel i value).2 = false ∧
      words_printed (dump_loop o read mem 0xFFFFFFFF fuel i value).1 = fuel := by
  intro fuel
  induction fuel with
  | zero => intro i value _; exact ⟨rfl, rfl⟩
  | succ n ih =>
    intro i value hi
    have hle : i ≤ 0xFFFFFFFF := by omega
    have hnext : (i + 4) % 2 ^ 32 < 2 ^ 32 := Nat.mod_lt _ (by norm_num)
    rw [dump_loop]
    simp only [hle, if_true]
    have h := ih ((i + 4) % 2 ^ 32)
      (object_value o (store_bytes (object_bytes o 4 value) (read mem i 4))) hnext
    refine ⟨h.1, ?_⟩
    simp only [words_printed]
    rw [h.2]

/-- C10, evaluated on the sources: for the data-section range from `0xFFFFFFFC`
to `0xFFFFFFFF` (no `begin_signature` symbol), where the claim has the loop
print one word and stop, the loop is still running after any number of
iterations and has printed a word in each; after the read at `0xFFFFFFFC` the
counter wraps and the next reads are at 0 and 4. -/
theorem signature_dump_wraps {Mem : Type} (o : byte_order)
    (read : Mem → Nat → Nat → List Nat) (mem : Mem) (fuel : Nat) :
    (0xFFFFFFFF - 0xFFFFFFFC) / 4 + 1 = 1 ∧
    (signature_dump o read mem true (some (0xFFFFFFFC, 0xFFFFFFFF)) none fuel).2 = false ∧
    words_printed
      (signature_dump o read mem true (some (0xFFFFFFFC, 0xFFFFFFFF)) none fuel).1 = fuel ∧
    read_addrs
      (signature_dump o read mem true (some (0xFFFFFFFC, 0xFFFFFFFF)) none 3).1
      = [0xFFFFFFFC, 0, 4] := by
  have h := dump_loop_top o read mem fuel 0xFFFFFFFC 0 (by norm_num)
  refine ⟨by norm_num, h.1, h.2, ?_⟩
  simp [signature_dump, dump_loop, read_addrs]

/-! ### The signature dump away from the top of the address space -/

theorem dump_loop_no_wrap {Mem : Type} (o : byte_order) (read : Mem → Nat → Nat → List Nat)
    (mem : Mem) (end_ : Nat) :
    ∀ (k fuel i value : Nat), i ≤ end_ → (end_ - i) / 4 = k → i + 4 * k + 4 < 2 ^ 32 →
      k + 2 ≤ fuel →
      (dump_loop o read mem end_ fuel i value).2 = true ∧
      read_addrs (dump_loop o read mem end_ fuel i value).1
        = (List.range (k + 1)).map (fun j => i + 4 * j) ∧
      words_printed (dump_loop o read mem end_ fuel i value).1 = k + 1 := by
  intro k
  induction k with
  | zero =>
    intro fuel i value hle hk hlt hfuel
    obtain ⟨f, rfl⟩ : ∃ f, fuel = f + 2 := ⟨fuel - 2, by omega⟩
    have hmod : (i + 4) % 2 ^ 32 = i + 4 := Nat.mod_eq_of_lt (by omega)
    have hgt : ¬ (i + 4 ≤ end_) := by omega
    rw [dump_loop]
    simp only [hle, if_true, hmod]
    rw [dump_loop]
    simp [hgt, read_addrs, words_printed, List.range_succ]
  | succ k ih =>
    intro fuel i value hle hk hlt hfuel
    obtain ⟨f, rfl⟩ : ∃ f, fuel = f + 1 := ⟨fuel - 1, by omega⟩
    have hmod : (i + 4) % 2 ^ 32 = i + 4 := Nat.mod_eq_of_lt (by omega)
    have h := ih f (i + 4)
      (object_value o (store_bytes (object_bytes o 4 value) (read mem i 4)))
      (by omega) (by omega) (by omega) (by omega)
    rw [dump_loop]
    simp only [hle, if_true, hmod]
    refine ⟨h.1, ?_, ?_⟩
    · simp only [read_addrs]
      rw [h.2.1, List.range_succ_eq_map (k + 1), List.map_cons, List.map_map]
      congr 1
      apply List.map_congr_left
      intro j _
      simp only [Function.comp, Nat.succ_eq_add_one]
      omega
    · simp only [words_printed]
      rw [h.2.2]

/-- Away from the top of the address space the dump is as expected: when the
last address read, `start + 4 * ((end - start) / 4)`, is below `2 ^ 32 - 4`, the
loop ends after reading `(end - start) / 4 + 1` words at `start`, `start + 4`,
...; when `start` exceeds `end` it ends at once and prints nothing. -/
theorem signature_dump_no_wrap {Mem : Type} (o : byte_order)
    (read : Mem → Nat → Nat → List Nat) (mem : Mem)
    (range_start end_ : Nat) (begin_signature : Option Nat) (fuel : Nat) :
    (begin_signature.getD range_start ≤ end_ →
      begin_signature.getD range_start
        + 4 * ((end_ - begin_signature.getD range_start) / 4) + 4 < 2 ^ 32 →
      (end_ - begin_signature.getD range_start) / 4 + 2 ≤ fuel →
      (signature_dump o read mem true (some (range_start, end_)) begin_signature fuel).2 = true ∧
      read_addrs
        (signature_dump o read mem true (some (range_start, end_)) begin_signature fuel).1
        = (List.range ((end_ - begin_signature.getD range_start) / 4 + 1)).map
            (fun j => begin_signature.getD range_start + 4 * j) ∧
      words_printed
        (signature_dump o read mem true (some (range_start, end_)) begin_signature fuel).1
        = (end_ - begin_signature.getD range_start) / 4 + 1) ∧
    (end_ < begin_signature.getD range_start → 1 ≤ fuel →
      signature_dump o read mem true (some (range_start, end_)) begin_signature fuel
        = ([], true)) := by
  have hs : signature_dump o read mem true (some (range_start, end_)) begin_signature fuel
      = dump_loop o read mem end_ fuel (begin_signature.getD range_start) 0 := by
    cases begin_signature <;> rfl
  rw [hs]
  constructor
  · intro hle hlt hfuel
    exact dump_loop_no_wrap o read mem end_ _ fuel _ 0 hle rfl hlt hfuel
  · intro hgt hfuel
    obtain ⟨f, rfl⟩ : ∃ f, fuel = f + 1 := ⟨fuel - 1, by omega⟩
    rw [dump_loop]
    simp [Nat.not_le.mpr hgt]

end RiscvVM
